import Mathlib

/-!
Verification development for the momentum-sniper trading engine
(`strategy.py`, `order_manager.py`, `utils.py`, `config.py`).

Python `float`/`Decimal` arithmetic is modelled as exact arithmetic over `ℚ`
(and over `ℝ` where a square root is required); Python dictionaries keyed by
instrument are modelled as total functions into `Option`-valued entries
(`defaultdict`s as total functions into the value type); `time.time()` values
are passed explicitly as `now : ℚ` parameters.
-/

namespace Sniper

/-! ## Configuration constants (from `config.py`) -/

def FEE_TAKER_BPS : ℚ := 10
def MAX_SLIPPAGE_BPS : ℚ := 5
def TP_ATR_MULTIPLIER : ℚ := 4
def SL_ATR_MULTIPLIER : ℚ := 2
def MIN_TP_BPS : ℚ := 20
def MAX_TP_BPS : ℚ := 80
def MIN_SL_BPS : ℚ := 15
def MAX_SL_BPS : ℚ := 60
def MIN_RISK_REWARD_RATIO : ℚ := 1/5
def MAX_CONCURRENT_TRADES : ℕ := 1
def MAX_CONSECUTIVE_LOSSES : ℕ := 5
def MAX_DAILY_LOSS : ℚ := 30
def COOL_DOWN_AFTER_EXIT_SEC : ℚ := 2
def COOL_DOWN_AFTER_LOSS_SEC : ℚ := 8
def MAX_TRADES_PER_PAIR_PER_HOUR : ℕ := 8
def BAR_SAMPLING_SEC : ℚ := 1
def BAR_HISTORY_MAX : ℕ := 400

/-- Python's `int(x)` applied to a number: truncation toward zero. -/
def pyInt (q : ℚ) : ℤ := if q < 0 then ⌈q⌉ else ⌊q⌋

/-! ## RiskManager (`utils.py`, lines 336-362) -/

/-- Embeds the mutable fields set in `RiskManager.__init__`.
`pair_trade_times` is a `defaultdict(list)`, modelled as a total function. -/
structure RiskState where
  daily_pnl : ℚ
  consecutive_losses : ℕ
  last_trade_time : ℚ
  last_loss_time : ℚ
  pair_trade_times : String → List ℚ

/-- The `RiskManager()` constructed at import time (`rm_global`). -/
def initRisk : RiskState :=
  { daily_pnl := 0, consecutive_losses := 0, last_trade_time := 0,
    last_loss_time := 0, pair_trade_times := fun _ => [] }

/-- Embeds `RiskManager.can_open_position`.  Returns the `(bool, reason)` pair
together with the risk state after the call (the method mutates
`pair_trade_times[inst_id]` when it reaches the per-instrument rate check).
`now` stands for `time.time()`. -/
def can_open_position (s : RiskState) (now : ℚ) (inst_id : Option String)
    (open_positions : ℕ) : (Bool × String) × RiskState :=
  if now - s.last_trade_time < COOL_DOWN_AFTER_EXIT_SEC then
    ((false, "Cooldown (" ++ toString (pyInt (COOL_DOWN_AFTER_EXIT_SEC - (now - s.last_trade_time))) ++ "s)"), s)
  else if 0 < s.consecutive_losses ∧ now - s.last_loss_time < COOL_DOWN_AFTER_LOSS_SEC then
    ((false, "Loss cooldown (" ++ toString (pyInt (COOL_DOWN_AFTER_LOSS_SEC - (now - s.last_loss_time))) ++ "s)"), s)
  else if s.daily_pnl ≤ -MAX_DAILY_LOSS then
    ((false, "Daily loss limit hit"), s)
  else if MAX_CONSECUTIVE_LOSSES ≤ s.consecutive_losses then
    ((false, "Max consecutive losses (" ++ toString s.consecutive_losses ++ ")"), s)
  else if MAX_CONCURRENT_TRADES ≤ open_positions then
    ((false, "Max concurrent trades (" ++ toString open_positions ++ ")"), s)
  else
    match inst_id with
    | none => ((true, ""), s)
    | some i =>
        let recent := (s.pair_trade_times i).filter (fun t => now - t < 3600)
        let s' := { s with pair_trade_times := Function.update s.pair_trade_times i recent }
        if MAX_TRADES_PER_PAIR_PER_HOUR ≤ recent.length then
          ((false, i ++ " rate limit"), s')
        else
          ((true, ""), s')

/-- Embeds `RiskManager.record_trade`.  The three `time.time()` calls inside
the method are modelled by the single `now` parameter. -/
def record_trade (s : RiskState) (inst_id : String) (pnl : ℚ) (now : ℚ) : RiskState :=
  let s1 : RiskState :=
    { s with daily_pnl := s.daily_pnl + pnl,
             last_trade_time := now,
             pair_trade_times :=
               Function.update s.pair_trade_times inst_id (s.pair_trade_times inst_id ++ [now]) }
  if pnl < 0 then
    { s1 with consecutive_losses := s1.consecutive_losses + 1, last_loss_time := now }
  else
    { s1 with consecutive_losses := 0 }

/-! ## Z-score (`strategy.py`, lines 94-101) -/

/-- The right-hand side of the tuple assignment
`mean, var = sum(arr) / len(arr), sum((x - mean) ** 2 for x in arr) / len(arr)`
evaluates its second component in an environment where the local `mean` is not
yet bound (tuple assignment binds only after the whole right-hand side is
evaluated).  The unbound lookup is modelled by the `Option ℝ` argument: `none`
means the name is unbound, so the generator body raises `NameError`. -/
noncomputable def varTermRHS (arr : List ℝ) (mean : Option ℝ) : Option ℝ :=
  mean.map (fun m => ((arr.map (fun x => (x - m) ^ 2)).sum) / (arr.length : ℝ))

/-- Embeds `MomentumSniper.compute_zscore`.  For fewer than 5 returns it
returns 0.0.  Otherwise the body runs inside `try`: the variance component of
the tuple assignment is evaluated while `mean` is still unbound
(`varTermRHS returns none`), so it raises `NameError`, the bare `except`
catches it, and the function returns 0.0.  The `some` branch is the arithmetic
that would run if the variance evaluation succeeded. -/
noncomputable def compute_zscore (returns : List ℝ) : ℝ :=
  if returns.length < 5 then 0
  else
    match varTermRHS returns none with
    | none => 0
    | some varp =>
        let mean := returns.sum / (returns.length : ℝ)
        let std := if 0 < varp then Real.sqrt varp else 1e-9
        (returns.getLast?.getD 0 - mean) / std

/-- Follows the spec's words ("z = (last−mean)/stddev, population stddev,
epsilon-guarded; fewer than 5 returns → 0.0"), for comparison with
`compute_zscore` as the code actually behaves. -/
noncomputable def zscore_spec (returns : List ℝ) : ℝ :=
  if returns.length < 5 then 0
  else
    let mean := returns.sum / (returns.length : ℝ)
    let varp := ((returns.map (fun x => (x - mean) ^ 2)).sum) / (returns.length : ℝ)
    let std := if 0 < varp then Real.sqrt varp else 1e-9
    (returns.getLast?.getD 0 - mean) / std

/-! ## Setup-stage TP/SL/risk-reward arithmetic (`strategy.py`, lines 158-178) -/

/-- The fields of the armed candidate derived on lines 158-176 that concern
the TP/SL targets and the stored risk-reward. -/
structure SetupTargets where
  raw_tp_bps : ℚ
  raw_sl_bps : ℚ
  rr : ℚ
  tp_bps_adj : ℚ
  sl_bps_adj : ℚ
deriving DecidableEq

/-- Embeds lines 158-170 of `check_setup_conditions`: raw TP/SL distances from
ATR, conversion to bps, the net-TP / raw-SL rejection test, the risk-reward
`rr = (raw_tp_bps - cost) / (raw_sl_bps + cost)` with its minimum-ratio
rejection, and the clamping of the bps targets.  `none` models an early
`return` (candidate rejected). -/
def check_setup_targets (current_price atr : ℚ) : Option SetupTargets :=
  let tp_dist := atr * TP_ATR_MULTIPLIER
  let sl_dist := atr * SL_ATR_MULTIPLIER
  let raw_tp_bps := tp_dist / current_price * 10000
  let raw_sl_bps := sl_dist / current_price * 10000
  let expected_cost_bps := FEE_TAKER_BPS + MAX_SLIPPAGE_BPS
  if raw_tp_bps - expected_cost_bps ≤ 0 ∨ raw_sl_bps ≤ 0 then none
  else
    let rr := (raw_tp_bps - expected_cost_bps) / (raw_sl_bps + expected_cost_bps)
    if rr < MIN_RISK_REWARD_RATIO then none
    else
      some { raw_tp_bps := raw_tp_bps, raw_sl_bps := raw_sl_bps, rr := rr,
             tp_bps_adj := max MIN_TP_BPS (min MAX_TP_BPS raw_tp_bps),
             sl_bps_adj := max MIN_SL_BPS (min MAX_SL_BPS raw_sl_bps) }

/-! ## BarAggregator (`strategy.py`, lines 15-49) -/

/-- A tick fed to `BarAggregator.add_tick`: `now` is the server-adjusted clock
`time.time() + order_manager.time_offset` at the call, `price` and `vol` the
arguments. -/
structure Tick where
  now : ℚ
  price : ℚ
  vol : ℚ
deriving DecidableEq

/-- A closed bar as appended on line 33: `(*self.current_bar, total_vol)`,
i.e. `(start, open, high, low, close, volume)`. -/
structure ClosedBar where
  start : ℚ
  o : ℚ
  h : ℚ
  l : ℚ
  c : ℚ
  vol : ℚ
deriving DecidableEq

/-- The in-progress bar tuple `self.current_bar = (bucket, o, h, l, c)`. -/
structure CurBar where
  bucket : ℚ
  o : ℚ
  h : ℚ
  l : ℚ
  c : ℚ
deriving DecidableEq

/-- The mutable state of one `BarAggregator`. -/
structure AggState where
  bars : List ClosedBar
  current_bar : Option CurBar
  current_bar_start : ℚ
  trade_volumes : List ℚ
deriving DecidableEq

/-- State set in `BarAggregator.__init__`. -/
def initAgg : AggState :=
  { bars := [], current_bar := none, current_bar_start := 0, trade_volumes := [] }

/-- `deque(maxlen=cap).append`: append on the right, evicting from the left
when the capacity is exceeded. -/
def pushBounded (cap : ℕ) (xs : List ClosedBar) (b : ClosedBar) : List ClosedBar :=
  if cap < (xs ++ [b]).length then (xs ++ [b]).drop ((xs ++ [b]).length - cap) else xs ++ [b]

/-- The time bucket computed on line 28:
`int(server_now / bar_period) * bar_period`. -/
def tickBucket (period : ℚ) (now : ℚ) : ℚ :=
  (pyInt (now / period) : ℚ) * period

/-- Lines 30-37: close the current bar (appending it with its accumulated
volume) and seed a new one when the bucket advanced (or no bar exists). -/
def rollTo (cap : ℕ) (s : AggState) (bucket price : ℚ) : AggState :=
  let s' :=
    match s.current_bar with
    | none => s
    | some cb =>
        let closed : ClosedBar :=
          { start := cb.bucket, o := cb.o, h := cb.h, l := cb.l, c := cb.c,
            vol := s.trade_volumes.sum }
        { s with bars := pushBounded cap s.bars closed }
  let seeded : CurBar := { bucket := bucket, o := price, h := price, l := price, c := price }
  { s' with current_bar_start := bucket, current_bar := some seeded, trade_volumes := [] }

/-- Embeds `BarAggregator.add_tick`. -/
def add_tick (cap : ℕ) (period : ℚ) (s : AggState) (now price volume : ℚ) : AggState :=
  let bucket := tickBucket period now
  let s1 :=
    match s.current_bar with
    | none => rollTo cap s bucket price
    | some _ => if s.current_bar_start < bucket then rollTo cap s bucket price else s
  match s1.current_bar with
  | none => s1
  | some cb =>
      let updated : CurBar :=
        { bucket := bucket, o := cb.o, h := max cb.h price, l := min cb.l price, c := price }
      let s2 := { s1 with current_bar := some updated }
      if 0 < volume then { s2 with trade_volumes := s2.trade_volumes ++ [volume] } else s2

/-- Feeds a sequence of ticks to an aggregator state. -/
def runAggFrom (cap : ℕ) (period : ℚ) (s : AggState) (ticks : List Tick) : AggState :=
  ticks.foldl (fun a t => add_tick cap period a t.now t.price t.vol) s

/-- Feeds a sequence of ticks to a fresh aggregator. -/
def runAgg (cap : ℕ) (period : ℚ) (ticks : List Tick) : AggState :=
  runAggFrom cap period initAgg ticks

/-- The price of the last tick of the sequence that falls in time bucket `s0`
(the last tick observed before the next bucket began, for a non-decreasing
clock). -/
def lastTickIn (period : ℚ) (ticks : List Tick) (s0 : ℚ) : Option ℚ :=
  (ticks.reverse.find? (fun t => decide (tickBucket period t.now = s0))).map Tick.price

/-! ## Tick ingestion (`strategy.py`, lines 257-290) -/

/-- A top-of-book message entry (one element of `bbo_data_list`): the `bids`
and `asks` arrays of price/quantity levels, numerals parsed as exact
rationals.  `get('bids')` returning `None` and an empty array take the same
branch in the code and are both modelled by `[]`. -/
structure BboData where
  bids : List (List ℚ)
  asks : List (List ℚ)
deriving DecidableEq

/-- The keys written into `pairs_data[inst_id]` by `handle_bbo_data`. -/
structure Quote where
  best_bid : ℚ
  best_ask : ℚ
  mid : ℚ
  book_bids : List (List ℚ)
  book_asks : List (List ℚ)
deriving DecidableEq

/-- One `pairs_data` entry: the quote keys written by `handle_bbo_data` plus
the `last_armed_high` key written by the setup scan (dict `.update` keeps
unrelated keys). -/
structure PairEntry where
  quote : Option Quote
  last_armed_high : Option ℚ
deriving DecidableEq

/-- The engine state touched (or claimed untouched) by the tick handlers:
`pairs_data`, the per-instrument `bar_aggregators` (a `defaultdict`, hence a
total function), the `armed_candidates` table and the active position slot
(both opaque here: the handlers never assign to them directly). -/
structure EngineState where
  pairs_data : String → Option PairEntry
  bar_aggregators : String → AggState
  armed_candidates : String → Option ℚ
  active_position : Option ℚ

/-- An engine with no pairs seen yet. -/
def initEngine : EngineState :=
  { pairs_data := fun _ => none, bar_aggregators := fun _ => initAgg,
    armed_candidates := fun _ => none, active_position := none }

/-- Embeds `MomentumSniper.handle_bbo_data`.  The returned `Bool` records
whether the setup/execution scan tasks were dispatched (the
`asyncio.create_task` calls guarded by `mid_price > 0`).  Note the code
writes the `pairs_data[inst_id]` snapshot *before* testing `mid_price > 0`. -/
def handle_bbo_data (s : EngineState) (inst_id : String)
    (bbo_data_list : List BboData) (now : ℚ) : EngineState × Bool :=
  match bbo_data_list.head? with
  | none => (s, false)
  | some bbo =>
    if bbo.bids.isEmpty || bbo.asks.isEmpty
        || bbo.bids.headI.isEmpty || bbo.asks.headI.isEmpty then (s, false)
    else
      match bbo.bids.headI.head?, bbo.asks.headI.head? with
      | some best_bid_px, some best_ask_px =>
          let mid := (best_bid_px + best_ask_px) / 2
          let base := (s.pairs_data inst_id).getD ({ quote := none, last_armed_high := none } : PairEntry)
          let q : Quote :=
            { best_bid := best_bid_px, best_ask := best_ask_px, mid := mid,
              book_bids := bbo.bids, book_asks := bbo.asks }
          let entry := { base with quote := some q }
          let s1 := { s with pairs_data := Function.update s.pairs_data inst_id (some entry) }
          if 0 < mid then
            let agg := add_tick BAR_HISTORY_MAX BAR_SAMPLING_SEC (s1.bar_aggregators inst_id) now mid 0
            ({ s1 with bar_aggregators := Function.update s1.bar_aggregators inst_id agg }, true)
          else (s1, false)
      | _, _ => (s, false)

/-- Embeds `MomentumSniper.handle_trade_data`: each trade `(px, sz)` with a
positive price is fed to the instrument's aggregator; others are skipped by
the `price > 0` guard (or by the per-trade `except: continue`). -/
def handle_trade_data (s : EngineState) (inst_id : String)
    (trades : List (ℚ × ℚ)) (now : ℚ) : EngineState :=
  let agg := trades.foldl
    (fun a tr => if 0 < tr.1 then add_tick BAR_HISTORY_MAX BAR_SAMPLING_SEC a now tr.1 tr.2 else a)
    (s.bar_aggregators inst_id)
  { s with bar_aggregators := Function.update s.bar_aggregators inst_id agg }

/-! ## force_close_position (`strategy.py`, lines 420-445) and the
`place_market_order` call (`order_manager.py`, line 130) -/

/-- The position states occurring in the code. -/
inductive PosState
  | PENDING_ENTRY
  | OPEN
  | CLOSING
  | CLOSING_FAILED
deriving DecidableEq

/-- The fields of the active-position dict relevant to `force_close_position`. -/
structure Position where
  inst_id : String
  state : PosState
  entry_size : Option ℚ
  attach_algo_id : Option String
  exit_order_id : Option String
  exit_type : Option String
deriving DecidableEq

/-- The required positional parameters of
`OrderManager.place_market_order(self, inst_id, side, amount, cl_ord_id, is_quote_amount=False)`
after `self`. -/
def place_market_order_required : List String :=
  ["inst_id", "side", "amount", "cl_ord_id"]

/-- The defaulted parameters of `place_market_order`. -/
def place_market_order_defaulted : List String :=
  ["is_quote_amount"]

/-- Python call binding for positional arguments: the call raises `TypeError`
unless every required parameter is covered and no extra argument remains. -/
def pythonCallBinds (required defaulted : List String) (nargs : ℕ) : Bool :=
  decide (required.length ≤ nargs) && decide (nargs ≤ required.length + defaulted.length)

/-- Line 438 passes exactly three positional arguments:
`place_market_order(inst_id, "sell", size_to_sell)`. -/
def force_close_call_nargs : ℕ := 3

/-- Outcome of a Python call: normal return or an uncaught exception. -/
inductive PyOutcome
  | returned
  | raisedTypeError
deriving DecidableEq

/-- Embeds `MomentumSniper.force_close_position`.  `submitResult` models the
reply of the market-exit submission for the case the call binds (`some oid` =
accepted with order id, `none` = submission failed).  The function returns
the new `active_position` slot and whether the call raised.  The
`state = CLOSING` write on line 424 happens before the `entry_size` check and
before the submission call, so it survives a raise. -/
def force_close_position (active : Option Position) (reason : String)
    (submitResult : Option String) : Option Position × PyOutcome :=
  match active with
  | none => (none, .returned)
  | some pos =>
    if pos.state ≠ PosState.OPEN then (some pos, .returned)
    else
      let pos := { pos with state := PosState.CLOSING }
      match pos.entry_size with
      | none => (none, .returned)
      | some sz =>
        if sz = 0 then (none, .returned)
        else
          if pythonCallBinds place_market_order_required place_market_order_defaulted
              force_close_call_nargs then
            match submitResult with
            | none => (some { pos with state := PosState.CLOSING_FAILED }, .returned)
            | some oid =>
                (some { pos with exit_order_id := some oid, exit_type := some reason }, .returned)
          else
            (some pos, .raisedTypeError)

/-! ## Concurrency model for the confirmation scan and entry dispatch
(`strategy.py`: `check_execution_conditions` lines 184-255, `enter_position`
lines 337-365, `check_setup_conditions` line 172, `finalize_trade` /
pending-entry-timeout clearing under the lock).

asyncio semantics: a single cooperative scheduler interleaves tasks at await
points; `asyncio.Lock` is held by at most one task across its awaits.  Each
task id `t : ℕ` models one confirmation scan for instrument `inst t` together
with the `enter_position` task it may dispatch via `asyncio.create_task`
(the entry coroutine runs strictly after the dispatching scan's critical
section, so sequential composition inside one task id is faithful; distinct
task ids interleave arbitrarily).  Armed candidates get fresh numeric
identities from a counter so that consumption can be traced.

The entry-submission call `order_manager.place_order_with_tpsl` is not
defined anywhere under the repository sources; its behaviour inside
`enter_position` is modelled from the spec (see `Step.submitOk` /
`Step.submitFail`). -/

/-- Program counter of one confirmation-scan-plus-entry task. -/
inductive PC
  | cIdle
  | cLocked
  | eIdle
  | eLocked
  | eBal
  | eSubmit
  | done
deriving DecidableEq

/-- Shared state of the engine relevant to position creation:
`pc t` is task `t`'s progress, `lock` the holder of `position_lock`,
`pos` the `active_position` slot (instrument, candidate id it was built
from), `armed` the `armed_candidates` table (candidate ids), `cand t` the
candidate popped by task `t` (if any), and `nextId` the fresh-candidate
counter. -/
structure Sys where
  pc : ℕ → PC
  lock : Option ℕ
  pos : Option (ℕ × ℕ)
  armed : ℕ → Option ℕ
  cand : ℕ → Option ℕ
  nextId : ℕ

/-- Initial state: no position, lock free, no candidates, all tasks at the
start of a confirmation scan. -/
def sysInit : Sys :=
  { pc := fun _ => PC.cIdle, lock := none, pos := none,
    armed := fun _ => none, cand := fun _ => none, nextId := 0 }

/-- One scheduler step.  `inst t` is the instrument task `t` scans.

Confirmation scan (`check_execution_conditions`):
`acquireC` enters `async with self.position_lock`; `confirmPosBusy` is the
`if self.active_position: return` check; `confirmNoCand` the
`candidate = self.armed_candidates.get(inst_id); if not candidate: return`
check; `confirmStale` the timeout branch that deletes the candidate;
`confirmReject` any of the risk/spread/confirmation rejections (which leave
the candidate in place); `confirmPromote` the success path
`signal = self.armed_candidates.pop(inst_id, None)` followed by
`asyncio.create_task(self.enter_position(...))`.

Entry task (`enter_position`): `acquireE` re-acquires the lock;
`enterPosBusy` is the re-check `if self.active_position: return`;
`enterProceed` passes the re-check and awaits `update_balance()` with the
lock held; `enterNoBal` the insufficient-balance return; `enterSubmit`
starts the entry-submission call with the lock still held.  Modelled from
the spec ("submit-entry-with-attached-exits(...) → (order_id, algo_id |
error)"): `submitFail` is an error reply (or a raised exception unwinding
through `async with`, which also releases the lock) — no position is
created; `submitOk` is an accepted order, after which line 358 commits
`self.active_position`.

Environment: `armNew` is `check_setup_conditions` committing a fresh armed
candidate (it runs without the position lock and only when the instrument is
not already armed, line 108); `clearPos` is `finalize_trade` or the
pending-entry timeout resetting `active_position = None` inside a
lock-guarded critical section that contains no await (atomic here, gated on
the lock being free). -/
inductive Step (inst : ℕ → ℕ) : Sys → Sys → Prop
  | acquireC (s : Sys) (t : ℕ) :
      s.pc t = PC.cIdle → s.lock = none →
      Step inst s { s with pc := Function.update s.pc t PC.cLocked, lock := some t }
  | confirmPosBusy (s : Sys) (t : ℕ) :
      s.pc t = PC.cLocked → s.lock = some t → s.pos.isSome →
      Step inst s { s with pc := Function.update s.pc t PC.done, lock := none }
  | confirmNoCand (s : Sys) (t : ℕ) :
      s.pc t = PC.cLocked → s.lock = some t → s.armed (inst t) = none →
      Step inst s { s with pc := Function.update s.pc t PC.done, lock := none }
  | confirmStale (s : Sys) (t : ℕ) :
      s.pc t = PC.cLocked → s.lock = some t → (s.armed (inst t)).isSome →
      Step inst s { s with pc := Function.update s.pc t PC.done, lock := none,
                           armed := Function.update s.armed (inst t) none }
  | confirmReject (s : Sys) (t : ℕ) :
      s.pc t = PC.cLocked → s.lock = some t →
      Step inst s { s with pc := Function.update s.pc t PC.done, lock := none }
  | confirmPromote (s : Sys) (t : ℕ) (c : ℕ) :
      s.pc t = PC.cLocked → s.lock = some t → s.pos = none → s.armed (inst t) = some c →
      Step inst s { s with pc := Function.update s.pc t PC.eIdle, lock := none,
                           armed := Function.update s.armed (inst t) none,
                           cand := Function.update s.cand t (some c) }
  | acquireE (s : Sys) (t : ℕ) :
      s.pc t = PC.eIdle → s.lock = none →
      Step inst s { s with pc := Function.update s.pc t PC.eLocked, lock := some t }
  | enterPosBusy (s : Sys) (t : ℕ) :
      s.pc t = PC.eLocked → s.lock = some t → s.pos.isSome →
      Step inst s { s with pc := Function.update s.pc t PC.done, lock := none }
  | enterProceed (s : Sys) (t : ℕ) :
      s.pc t = PC.eLocked → s.lock = some t → s.pos = none →
      Step inst s { s with pc := Function.update s.pc t PC.eBal }
  | enterNoBal (s : Sys) (t : ℕ) :
      s.pc t = PC.eBal → s.lock = some t →
      Step inst s { s with pc := Function.update s.pc t PC.done, lock := none }
  | enterSubmit (s : Sys) (t : ℕ) :
      s.pc t = PC.eBal → s.lock = some t →
      Step inst s { s with pc := Function.update s.pc t PC.eSubmit }
  | submitFail (s : Sys) (t : ℕ) :
      s.pc t = PC.eSubmit → s.lock = some t →
      Step inst s { s with pc := Function.update s.pc t PC.done, lock := none }
  | submitOk (s : Sys) (t : ℕ) (c : ℕ) :
      s.pc t = PC.eSubmit → s.lock = some t → s.cand t = some c →
      Step inst s { s with pc := Function.update s.pc t PC.done, lock := none,
                           pos := some (inst t, c) }
  | armNew (s : Sys) (i : ℕ) :
      s.armed i = none →
      Step inst s { s with armed := Function.update s.armed i (some s.nextId),
                           nextId := s.nextId + 1 }
  | clearPos (s : Sys) :
      s.lock = none → s.pos.isSome →
      Step inst s { s with pos := none }

/-- States reachable from `sysInit` by scheduler steps. -/
inductive Reach (inst : ℕ → ℕ) : Sys → Prop
  | init : Reach inst sysInit
  | step {s s' : Sys} : Reach inst s → Step inst s s' → Reach inst s'

/-- A task is at an entry-phase program point (holding a popped candidate). -/
def entryPhase (p : PC) : Prop :=
  p = PC.eIdle ∨ p = PC.eLocked ∨ p = PC.eBal ∨ p = PC.eSubmit

/-- The inductive invariant of the system. -/
structure SysInv (inst : ℕ → ℕ) (s : Sys) : Prop where
  ownC : ∀ t, s.pc t = PC.cLocked → s.lock = some t
  ownE : ∀ t, s.pc t = PC.eLocked ∨ s.pc t = PC.eBal ∨ s.pc t = PC.eSubmit → s.lock = some t
  posNone : ∀ t, s.pc t = PC.eBal ∨ s.pc t = PC.eSubmit → s.pos = none
  candSome : ∀ t, entryPhase (s.pc t) → (s.cand t).isSome
  freshA : ∀ i c, s.armed i = some c → c < s.nextId
  freshT : ∀ t c, s.cand t = some c → c < s.nextId
  freshP : ∀ i c, s.pos = some (i, c) → c < s.nextId
  sepT : ∀ i c, s.armed i = some c → ∀ t, s.cand t ≠ some c
  sepP : ∀ i c, s.armed i = some c → ∀ j, s.pos ≠ some (j, c)
  injA : ∀ i j c, s.armed i = some c → s.armed j = some c → i = j
  injT : ∀ t u c, s.cand t = some c → s.cand u = some c → t = u

/-- The lock has a single holder. -/
theorem holder_unique {s : Sys} {t u : ℕ} (hl : s.lock = some t) (h : s.lock = some u) :
    u = t :=
  Option.some.inj (h.symm.trans hl)

/-- Releasing the lock while finishing task `t` preserves the invariant
(common to all critical-section exits that change nothing else). -/
theorem sysInv_release (inst : ℕ → ℕ) (s : Sys) (t : ℕ) (hinv : SysInv inst s)
    (hl : s.lock = some t) :
    SysInv inst { s with pc := Function.update s.pc t PC.done, lock := none } := by
  refine ⟨?_, ?_, ?_, ?_, hinv.freshA, hinv.freshT, hinv.freshP, hinv.sepT, hinv.sepP,
    hinv.injA, hinv.injT⟩
  · intro u hu
    dsimp only at hu
    by_cases hut : u = t
    · subst hut; rw [Function.update_same] at hu; exact nomatch hu
    · rw [Function.update_noteq hut] at hu
      exact (hut (holder_unique hl (hinv.ownC u hu))).elim
  · intro u hu
    dsimp only at hu
    by_cases hut : u = t
    · subst hut; rw [Function.update_same] at hu
      rcases hu with h | h | h <;> exact nomatch h
    · rw [Function.update_noteq hut] at hu
      exact (hut (holder_unique hl (hinv.ownE u hu))).elim
  · intro u hu
    dsimp only at hu ⊢
    by_cases hut : u = t
    · subst hut; rw [Function.update_same] at hu
      rcases hu with h | h <;> exact nomatch h
    · rw [Function.update_noteq hut] at hu
      exact hinv.posNone u hu
  · intro u hu
    dsimp only at hu ⊢
    by_cases hut : u = t
    · subst hut; rw [Function.update_same] at hu
      rcases hu with h | h | h | h <;> exact nomatch h
    · rw [Function.update_noteq hut] at hu
      exact hinv.candSome u hu

/-- Deleting an armed candidate preserves the invariant. -/
theorem sysInv_armedShrink (inst : ℕ → ℕ) (s : Sys) (i : ℕ) (hinv : SysInv inst s) :
    SysInv inst { s with armed := Function.update s.armed i none } := by
  refine ⟨hinv.ownC, hinv.ownE, hinv.posNone, hinv.candSome, ?_, hinv.freshT, hinv.freshP,
    ?_, ?_, ?_, hinv.injT⟩
  · intro j c hj
    dsimp only at hj
    by_cases hji : j = i
    · subst hji; rw [Function.update_same] at hj; exact nomatch hj
    · rw [Function.update_noteq hji] at hj; exact hinv.freshA j c hj
  · intro j c hj u
    dsimp only at hj
    by_cases hji : j = i
    · subst hji; rw [Function.update_same] at hj; exact nomatch hj
    · rw [Function.update_noteq hji] at hj; exact hinv.sepT j c hj u
  · intro j c hj k
    dsimp only at hj
    by_cases hji : j = i
    · subst hji; rw [Function.update_same] at hj; exact nomatch hj
    · rw [Function.update_noteq hji] at hj; exact hinv.sepP j c hj k
  · intro j k c hj hk
    dsimp only at hj hk
    by_cases hji : j = i
    · subst hji; rw [Function.update_same] at hj; exact nomatch hj
    · by_cases hki : k = i
      · subst hki; rw [Function.update_same] at hk; exact nomatch hk
      · rw [Function.update_noteq hji] at hj; rw [Function.update_noteq hki] at hk
        exact hinv.injA j k c hj hk

/-- Acquiring the free lock at the start of a confirmation scan preserves the
invariant. -/
theorem sysInv_acquireC (inst : ℕ → ℕ) (s : Sys) (t : ℕ) (hinv : SysInv inst s)
    (hpc : s.pc t = PC.cIdle) (hl : s.lock = none) :
    SysInv inst { s with pc := Function.update s.pc t PC.cLocked, lock := some t } := by
  refine ⟨?_, ?_, ?_, ?_, hinv.freshA, hinv.freshT, hinv.freshP, hinv.sepT, hinv.sepP,
    hinv.injA, hinv.injT⟩
  · intro u hu
    dsimp only at hu ⊢
    by_cases hut : u = t
    · subst hut; rfl
    · rw [Function.update_noteq hut] at hu
      rw [hinv.ownC u hu] at hl; exact nomatch hl
  · intro u hu
    dsimp only at hu ⊢
    by_cases hut : u = t
    · subst hut; rfl
    · rw [Function.update_noteq hut] at hu
      rw [hinv.ownE u hu] at hl; exact nomatch hl
  · intro u hu
    dsimp only at hu ⊢
    by_cases hut : u = t
    · subst hut; rw [Function.update_same] at hu
      rcases hu with h | h <;> exact nomatch h
    · rw [Function.update_noteq hut] at hu
      exact hinv.posNone u hu
  · intro u hu
    dsimp only at hu ⊢
    by_cases hut : u = t
    · subst hut; rw [Function.update_same] at hu
      rcases hu with h | h | h | h <;> exact nomatch h
    · rw [Function.update_noteq hut] at hu
      exact hinv.candSome u hu

/-- Acquiring the free lock at the start of an entry task preserves the
invariant. -/
theorem sysInv_acquireE (inst : ℕ → ℕ) (s : Sys) (t : ℕ) (hinv : SysInv inst s)
    (hpc : s.pc t = PC.eIdle) (hl : s.lock = none) :
    SysInv inst { s with pc := Function.update s.pc t PC.eLocked, lock := some t } := by
  refine ⟨?_, ?_, ?_, ?_, hinv.freshA, hinv.freshT, hinv.freshP, hinv.sepT, hinv.sepP,
    hinv.injA, hinv.injT⟩
  · intro u hu
    dsimp only at hu ⊢
    by_cases hut : u = t
    · subst hut; rfl
    · rw [Function.update_noteq hut] at hu
      rw [hinv.ownC u hu] at hl; exact nomatch hl
  · intro u hu
    dsimp only at hu ⊢
    by_cases hut : u = t
    · subst hut; rfl
    · rw [Function.update_noteq hut] at hu
      rw [hinv.ownE u hu] at hl; exact nomatch hl
  · intro u hu
    dsimp only at hu ⊢
    by_cases hut : u = t
    · subst hut; rw [Function.update_same] at hu
      rcases hu with h | h <;> exact nomatch h
    · rw [Function.update_noteq hut] at hu
      exact hinv.posNone u hu
  · intro u hu
    dsimp only at hu ⊢
    by_cases hut : u = t
    · subst hut
      exact hinv.candSome _ (Or.inl hpc)
    · rw [Function.update_noteq hut] at hu
      exact hinv.candSome u hu

/-- The promote step (pop candidate, dispatch entry) preserves the
invariant. -/
theorem sysInv_promote (inst : ℕ → ℕ) (s : Sys) (t c : ℕ) (hinv : SysInv inst s)
    (hpc : s.pc t = PC.cLocked) (hl : s.lock = some t) (hpos : s.pos = none)
    (ha : s.armed (inst t) = some c) :
    SysInv inst { s with pc := Function.update s.pc t PC.eIdle, lock := none,
                         armed := Function.update s.armed (inst t) none,
                         cand := Function.update s.cand t (some c) } := by
  refine ⟨?_, ?_, ?_, ?_, ?_, ?_, ?_, ?_, ?_, ?_, ?_⟩
  · intro u hu
    dsimp only at hu
    by_cases hut : u = t
    · subst hut; rw [Function.update_same] at hu; exact nomatch hu
    · rw [Function.update_noteq hut] at hu
      exact (hut (holder_unique hl (hinv.ownC u hu))).elim
  · intro u hu
    dsimp only at hu
    by_cases hut : u = t
    · subst hut; rw [Function.update_same] at hu
      rcases hu with h | h | h <;> exact nomatch h
    · rw [Function.update_noteq hut] at hu
      exact (hut (holder_unique hl (hinv.ownE u hu))).elim
  · intro u hu
    dsimp only at hu ⊢
    exact hpos
  · intro u hu
    dsimp only at hu ⊢
    by_cases hut : u = t
    · subst hut; rw [Function.update_same]; rfl
    · rw [Function.update_noteq hut] at hu ⊢
      exact hinv.candSome u hu
  · intro j d hj
    dsimp only at hj ⊢
    by_cases hji : j = inst t
    · subst hji; rw [Function.update_same] at hj; exact nomatch hj
    · rw [Function.update_noteq hji] at hj; exact hinv.freshA j d hj
  · intro u d hu
    dsimp only at hu ⊢
    by_cases hut : u = t
    · subst hut; rw [Function.update_same] at hu
      obtain rfl := Option.some.inj hu
      exact hinv.freshA _ _ ha
    · rw [Function.update_noteq hut] at hu; exact hinv.freshT u d hu
  · intro j d hj
    dsimp only at hj
    rw [hpos] at hj; exact nomatch hj
  · intro j d hj u
    dsimp only at hj ⊢
    by_cases hji : j = inst t
    · subst hji; rw [Function.update_same] at hj; exact nomatch hj
    · rw [Function.update_noteq hji] at hj
      by_cases hut : u = t
      · subst hut; rw [Function.update_same]
        intro hdc
        obtain rfl := Option.some.inj hdc
        exact hji (hinv.injA _ _ _ hj ha)
      · rw [Function.update_noteq hut]
        exact hinv.sepT j d hj u
  · intro j d hj k
    dsimp only at hj ⊢
    rw [hpos]
    exact fun h => nomatch h
  · intro j k d hj hk
    dsimp only at hj hk
    by_cases hji : j = inst t
    · subst hji; rw [Function.update_same] at hj; exact nomatch hj
    · by_cases hki : k = inst t
      · subst hki; rw [Function.update_same] at hk; exact nomatch hk
      · rw [Function.update_noteq hji] at hj; rw [Function.update_noteq hki] at hk
        exact hinv.injA j k d hj hk
  · intro u v d hu hv
    dsimp only at hu hv
    by_cases hut : u = t
    · by_cases hvt : v = t
      · rw [hut, hvt]
      · subst hut; rw [Function.update_same] at hu
        rw [Function.update_noteq hvt] at hv
        obtain rfl := Option.some.inj hu
        exact ((hinv.sepT _ _ ha v) hv).elim
    · by_cases hvt : v = t
      · subst hvt; rw [Function.update_same] at hv
        rw [Function.update_noteq hut] at hu
        obtain rfl := Option.some.inj hv
        exact ((hinv.sepT _ _ ha u) hu).elim
      · rw [Function.update_noteq hut] at hu; rw [Function.update_noteq hvt] at hv
        exact hinv.injT u v d hu hv

/-- Passing the re-check and starting the balance await (lock kept) preserves
the invariant. -/
theorem sysInv_enterProceed (inst : ℕ → ℕ) (s : Sys) (t : ℕ) (hinv : SysInv inst s)
    (hpc : s.pc t = PC.eLocked) (hl : s.lock = some t) (hpos : s.pos = none) :
    SysInv inst { s with pc := Function.update s.pc t PC.eBal } := by
  refine ⟨?_, ?_, ?_, ?_, hinv.freshA, hinv.freshT, hinv.freshP, hinv.sepT, hinv.sepP,
    hinv.injA, hinv.injT⟩
  · intro u hu
    dsimp only at hu ⊢
    by_cases hut : u = t
    · subst hut; rw [Function.update_same] at hu; exact nomatch hu
    · rw [Function.update_noteq hut] at hu
      exact hinv.ownC u hu
  · intro u hu
    dsimp only at hu ⊢
    by_cases hut : u = t
    · subst hut; exact hl
    · rw [Function.update_noteq hut] at hu
      exact hinv.ownE u hu
  · intro u hu
    dsimp only at hu ⊢
    exact hpos
  · intro u hu
    dsimp only at hu ⊢
    by_cases hut : u = t
    · subst hut; exact hinv.candSome _ (Or.inr (Or.inl hpc))
    · rw [Function.update_noteq hut] at hu
      exact hinv.candSome u hu

/-- Starting the entry-submission call (lock kept) preserves the invariant. -/
theorem sysInv_enterSubmit (inst : ℕ → ℕ) (s : Sys) (t : ℕ) (hinv : SysInv inst s)
    (hpc : s.pc t = PC.eBal) (hl : s.lock = some t) :
    SysInv inst { s with pc := Function.update s.pc t PC.eSubmit } := by
  refine ⟨?_, ?_, ?_, ?_, hinv.freshA, hinv.freshT, hinv.freshP, hinv.sepT, hinv.sepP,
    hinv.injA, hinv.injT⟩
  · intro u hu
    dsimp only at hu ⊢
    by_cases hut : u = t
    · subst hut; rw [Function.update_same] at hu; exact nomatch hu
    · rw [Function.update_noteq hut] at hu
      exact hinv.ownC u hu
  · intro u hu
    dsimp only at hu ⊢
    by_cases hut : u = t
    · subst hut; exact hl
    · rw [Function.update_noteq hut] at hu
      exact hinv.ownE u hu
  · intro u hu
    dsimp only at hu ⊢
    exact hinv.posNone t (Or.inl hpc)
  · intro u hu
    dsimp only at hu ⊢
    by_cases hut : u = t
    · subst hut; exact hinv.candSome _ (Or.inr (Or.inr (Or.inl hpc)))
    · rw [Function.update_noteq hut] at hu
      exact hinv.candSome u hu

/-- Committing the position after an accepted entry submission preserves the
invariant. -/
theorem sysInv_submitOk (inst : ℕ → ℕ) (s : Sys) (t c : ℕ) (hinv : SysInv inst s)
    (hpc : s.pc t = PC.eSubmit) (hl : s.lock = some t) (hc : s.cand t = some c) :
    SysInv inst { s with pc := Function.update s.pc t PC.done, lock := none,
                         pos := some (inst t, c) } := by
  refine ⟨?_, ?_, ?_, ?_, hinv.freshA, hinv.freshT, ?_, hinv.sepT, ?_, hinv.injA, hinv.injT⟩
  · intro u hu
    dsimp only at hu
    by_cases hut : u = t
    · subst hut; rw [Function.update_same] at hu; exact nomatch hu
    · rw [Function.update_noteq hut] at hu
      exact (hut (holder_unique hl (hinv.ownC u hu))).elim
  · intro u hu
    dsimp only at hu
    by_cases hut : u = t
    · subst hut; rw [Function.update_same] at hu
      rcases hu with h | h | h <;> exact nomatch h
    · rw [Function.update_noteq hut] at hu
      exact (hut (holder_unique hl (hinv.ownE u hu))).elim
  · intro u hu
    dsimp only at hu
    by_cases hut : u = t
    · subst hut; rw [Function.update_same] at hu
      rcases hu with h | h <;> exact nomatch h
    · rw [Function.update_noteq hut] at hu
      exact (hut (holder_unique hl (hinv.ownE u (Or.inr hu)))).elim
  · intro u hu
    dsimp only at hu ⊢
    by_cases hut : u = t
    · subst hut; rw [Function.update_same] at hu
      rcases hu with h | h | h | h <;> exact nomatch h
    · rw [Function.update_noteq hut] at hu
      exact hinv.candSome u hu
  · intro j d hj
    dsimp only at hj
    simp only [Option.some.injEq, Prod.mk.injEq] at hj
    obtain ⟨h1, h2⟩ := hj
    subst h2
    exact hinv.freshT t _ hc
  · intro j d hj k
    dsimp only at hj ⊢
    intro hcontra
    simp only [Option.some.injEq, Prod.mk.injEq] at hcontra
    obtain ⟨h1, h2⟩ := hcontra
    subst h2
    exact (hinv.sepT j _ hj t) hc

/-- A fresh candidate being armed by the setup scan preserves the invariant. -/
theorem sysInv_armNew (inst : ℕ → ℕ) (s : Sys) (i : ℕ) (hinv : SysInv inst s)
    (ha : s.armed i = none) :
    SysInv inst { s with armed := Function.update s.armed i (some s.nextId),
                         nextId := s.nextId + 1 } := by
  refine ⟨hinv.ownC, hinv.ownE, hinv.posNone, hinv.candSome, ?_, ?_, ?_, ?_, ?_, ?_, hinv.injT⟩
  · intro j c hj
    dsimp only at hj ⊢
    by_cases hji : j = i
    · subst hji; rw [Function.update_same] at hj
      obtain rfl := Option.some.inj hj
      exact Nat.lt_succ_self _
    · rw [Function.update_noteq hji] at hj
      exact Nat.lt_succ_of_lt (hinv.freshA j c hj)
  · intro u c hu
    dsimp only at hu ⊢
    exact Nat.lt_succ_of_lt (hinv.freshT u c hu)
  · intro j c hj
    dsimp only at hj ⊢
    exact Nat.lt_succ_of_lt (hinv.freshP j c hj)
  · intro j c hj u
    dsimp only at hj ⊢
    by_cases hji : j = i
    · subst hji; rw [Function.update_same] at hj
      obtain rfl := Option.some.inj hj
      intro hcontra
      exact Nat.lt_irrefl _ (hinv.freshT u _ hcontra)
    · rw [Function.update_noteq hji] at hj
      exact hinv.sepT j c hj u
  · intro j c hj k
    dsimp only at hj ⊢
    by_cases hji : j = i
    · subst hji; rw [Function.update_same] at hj
      obtain rfl := Option.some.inj hj
      intro hcontra
      exact Nat.lt_irrefl _ (hinv.freshP k _ hcontra)
    · rw [Function.update_noteq hji] at hj
      exact hinv.sepP j c hj k
  · intro j k c hj hk
    dsimp only at hj hk
    by_cases hji : j = i
    · by_cases hki : k = i
      · rw [hji, hki]
      · subst hji; rw [Function.update_same] at hj
        rw [Function.update_noteq hki] at hk
        obtain rfl := Option.some.inj hj
        exact (Nat.lt_irrefl _ (hinv.freshA k _ hk)).elim
    · by_cases hki : k = i
      · subst hki; rw [Function.update_same] at hk
        rw [Function.update_noteq hji] at hj
        obtain rfl := Option.some.inj hk
        exact (Nat.lt_irrefl _ (hinv.freshA j _ hj)).elim
      · rw [Function.update_noteq hji] at hj; rw [Function.update_noteq hki] at hk
        exact hinv.injA j k c hj hk

/-- Clearing the position (trade finalize / pending-entry timeout, inside a
lock-guarded critical section) preserves the invariant. -/
theorem sysInv_clearPos (inst : ℕ → ℕ) (s : Sys) (hinv : SysInv inst s) :
    SysInv inst { s with pos := none } := by
  refine ⟨hinv.ownC, hinv.ownE, ?_, hinv.candSome, hinv.freshA, hinv.freshT, ?_, hinv.sepT,
    ?_, hinv.injA, hinv.injT⟩
  · intro u hu
    rfl
  · intro j c hj
    exact nomatch hj
  · intro j c hj k
    exact fun h => nomatch h

/-- Every scheduler step preserves the invariant. -/
theorem sysInv_step {inst : ℕ → ℕ} {s s' : Sys} (hinv : SysInv inst s)
    (hs : Step inst s s') : SysInv inst s' := by
  cases hs with
  | acquireC t hpc hl => exact sysInv_acquireC inst _ t hinv hpc hl
  | confirmPosBusy t hpc hl hpos => exact sysInv_release inst _ t hinv hl
  | confirmNoCand t hpc hl ha => exact sysInv_release inst _ t hinv hl
  | confirmStale t hpc hl ha =>
      exact sysInv_release inst _ t (sysInv_armedShrink inst _ (inst t) hinv) hl
  | confirmReject t hpc hl => exact sysInv_release inst _ t hinv hl
  | confirmPromote t c hpc hl hpos ha => exact sysInv_promote inst _ t c hinv hpc hl hpos ha
  | acquireE t hpc hl => exact sysInv_acquireE inst _ t hinv hpc hl
  | enterPosBusy t hpc hl hpos => exact sysInv_release inst _ t hinv hl
  | enterProceed t hpc hl hpos => exact sysInv_enterProceed inst _ t hinv hpc hl hpos
  | enterNoBal t hpc hl => exact sysInv_release inst _ t hinv hl
  | enterSubmit t hpc hl => exact sysInv_enterSubmit inst _ t hinv hpc hl
  | submitFail t hpc hl => exact sysInv_release inst _ t hinv hl
  | submitOk t c hpc hl hc => exact sysInv_submitOk inst _ t c hinv hpc hl hc
  | armNew i ha => exact sysInv_armNew inst _ i hinv ha
  | clearPos hl hpos => exact sysInv_clearPos inst _ hinv

/-- The initial state satisfies the invariant. -/
theorem sysInv_init (inst : ℕ → ℕ) : SysInv inst sysInit := by
  constructor
  · intro u hu; simp [sysInit] at hu
  · intro u hu; simp [sysInit] at hu
  · intro u hu; rfl
  · intro u hu; simp [sysInit, entryPhase] at hu
  · intro i c h; simp [sysInit] at h
  · intro t c h; simp [sysInit] at h
  · intro i c h; simp [sysInit] at h
  · intro i c h t; simp [sysInit] at h
  · intro i c h j; simp [sysInit] at h
  · intro i j c h hk; simp [sysInit] at h
  · intro t u c h hu; simp [sysInit] at h

/-- Every reachable state satisfies the invariant. -/
theorem sysInv_reach {inst : ℕ → ℕ} {s : Sys} (h : Reach inst s) : SysInv inst s := by
  induction h with
  | init => exact sysInv_init inst
  | step _ hs ih => exact sysInv_step ih hs

/-! ## A concrete reachable execution (used to witness the invariant
theorems): arm a candidate for instrument 0, promote it in a confirmation
scan, and drive the dispatched entry task up to the in-flight submission. -/

/-- All demo tasks scan instrument 0. -/
def inst0 : ℕ → ℕ := fun _ => 0

/-- After the setup scan arms candidate 0 for instrument 0. -/
def demo1 : Sys :=
  { sysInit with armed := Function.update sysInit.armed 0 (some sysInit.nextId),
                 nextId := sysInit.nextId + 1 }

/-- Task 0 has acquired the position lock for its confirmation scan. -/
def demo2 : Sys :=
  { demo1 with pc := Function.update demo1.pc 0 PC.cLocked, lock := some 0 }

/-- Task 0 has promoted the candidate and dispatched its entry task. -/
def demo3 : Sys :=
  { demo2 with pc := Function.update demo2.pc 0 PC.eIdle, lock := none,
               armed := Function.update demo2.armed (inst0 0) none,
               cand := Function.update demo2.cand 0 (some 0) }

/-- The entry task has re-acquired the lock. -/
def demo4 : Sys :=
  { demo3 with pc := Function.update demo3.pc 0 PC.eLocked, lock := some 0 }

/-- The entry task passed the re-check and awaits the balance update. -/
def demo5 : Sys :=
  { demo4 with pc := Function.update demo4.pc 0 PC.eBal }

/-- The entry task's submission call is in flight, lock still held. -/
def demo6 : Sys :=
  { demo5 with pc := Function.update demo5.pc 0 PC.eSubmit }

theorem reach_demo1 : Reach inst0 demo1 :=
  Reach.step Reach.init (Step.armNew sysInit 0 rfl)

theorem reach_demo6 : Reach inst0 demo6 := by
  have h2 : Step inst0 demo1 demo2 := Step.acquireC demo1 0 rfl rfl
  have h3 : Step inst0 demo2 demo3 :=
    Step.confirmPromote demo2 0 0 (by simp [demo2]) rfl rfl
      (by simp [demo2, demo1, sysInit, inst0])
  have h4 : Step inst0 demo3 demo4 := Step.acquireE demo3 0 (by simp [demo3, demo2]) rfl
  have h5 : Step inst0 demo4 demo5 := Step.enterProceed demo4 0 (by simp [demo4, demo3, demo2]) rfl rfl
  have h6 : Step inst0 demo5 demo6 := Step.enterSubmit demo5 0 (by simp [demo5, demo4, demo3, demo2]) rfl
  exact Reach.step (Reach.step (Reach.step (Reach.step (Reach.step reach_demo1 h2) h3) h4) h5) h6

/-! ## Claim theorems for the concurrency model -/

/-- Claim C1: at most one global Position exists at any instant, for every
interleaving of concurrently scheduled confirmation scans and asynchronously
dispatched entry tasks across instruments.  In every reachable state: a task
whose entry submission is in flight holds the position lock (the lock is held
across the entry-submission call) and the re-check under the lock guarantees
no committed position exists at that moment; at most one submission is in
flight; and while a position is committed no submission is in flight — so the
committed position slot plus in-flight entry orders never amount to more than
one position. -/
theorem enter_position_single_position (inst : ℕ → ℕ) (s : Sys) (h : Reach inst s) :
    (∀ t, s.pc t = PC.eSubmit → s.lock = some t ∧ s.pos = none) ∧
    (∀ t u, s.pc t = PC.eSubmit → s.pc u = PC.eSubmit → t = u) ∧
    (s.pos.isSome → ∀ t, s.pc t ≠ PC.eSubmit) := by
  have hinv := sysInv_reach h
  refine ⟨?_, ?_, ?_⟩
  · intro t ht
    exact ⟨hinv.ownE t (Or.inr (Or.inr ht)), hinv.posNone t (Or.inr ht)⟩
  · intro t u ht hu
    have h1 := hinv.ownE t (Or.inr (Or.inr ht))
    have h2 := hinv.ownE u (Or.inr (Or.inr hu))
    exact (holder_unique h1 h2).symm
  · intro hp t ht
    rw [hinv.posNone t (Or.inr ht)] at hp
    simp at hp

/-- Witness for C1 at the reachable state `demo6`, whose entry submission for
task 0 is in flight. -/
theorem enter_position_single_position_witness :
    demo6.lock = some 0 ∧ demo6.pos = none :=
  (enter_position_single_position inst0 demo6 reach_demo6).1 0
    (by simp [demo6, demo5, demo4, demo3, demo2])

/-- Claim C6: in every reachable state, a candidate still present in the
armed-candidate table has never been consumed — no task holds it and no
position was created from it (so a candidate is removed before any Position
is created from it, and a second concurrent confirmation for the instrument
finds no candidate) — and any candidate is consumed by at most one task. -/
theorem armed_candidate_consumed_once (inst : ℕ → ℕ) (s : Sys) (h : Reach inst s) :
    (∀ i c, s.armed i = some c → (∀ t, s.cand t ≠ some c) ∧ ∀ j, s.pos ≠ some (j, c)) ∧
    (∀ t u c, s.cand t = some c → s.cand u = some c → t = u) := by
  have hinv := sysInv_reach h
  exact ⟨fun i c hi => ⟨hinv.sepT i c hi, hinv.sepP i c hi⟩, hinv.injT⟩

/-- Witness for C6 at the reachable state `demo1`, where candidate 0 is armed
for instrument 0. -/
theorem armed_candidate_consumed_once_witness :
    demo1.cand 0 ≠ some 0 ∧ demo1.pos ≠ some (0, 0) :=
  let h := (armed_candidate_consumed_once inst0 demo1 reach_demo1).1 0 0
    (by simp [demo1, sysInit])
  ⟨h.1 0, h.2 0⟩

/-! ## Claim theorems: arithmetic and single-call behaviour -/

/-- Claim C3 (code bug evaluation): on the failing input
`[0, 0, 0, 0, 1]` (five returns), `compute_zscore` returns 0 — the tuple
assignment raises `NameError` on the unbound `mean` and the bare `except`
swallows it — while the spec formula gives `(1 - 1/5) / sqrt(4/25) = 2`. -/
theorem compute_zscore_name_error_divergence :
    compute_zscore [0, 0, 0, 0, 1] = 0 ∧ zscore_spec [0, 0, 0, 0, 1] = 2 := by
  constructor
  · simp [compute_zscore, varTermRHS]
  · have h4 : Real.sqrt 4 = 2 := by
      rw [show (4 : ℝ) = 2 ^ 2 by norm_num]
      exact Real.sqrt_sq (by norm_num)
    have h25 : Real.sqrt 25 = 5 := by
      rw [show (25 : ℝ) = 5 ^ 2 by norm_num]
      exact Real.sqrt_sq (by norm_num)
    simp only [zscore_spec, List.length_cons, List.length_nil, List.map_cons, List.map_nil,
      List.sum_cons, List.sum_nil, List.getLast?]
    norm_num
    rw [h4, h25]
    norm_num

/-- Claim C4 (counterexample): with entry price 100 and ATR 1 the armed
risk-reward stored by `check_setup_conditions` is
`(400 - 15) / (200 + 15) = 77/43`, which differs from the claimed
net-TP-bps / net-SL-bps value `(400 - 15) / (200 - 15) = 77/37`. -/
theorem setup_rr_counterexample :
    (check_setup_targets 100 1).map SetupTargets.rr = some (77 / 43) ∧
    (77 / 43 : ℚ) ≠ (400 - 15) / (200 - 15) := by
  constructor
  · rw [check_setup_targets]
    norm_num [TP_ATR_MULTIPLIER, SL_ATR_MULTIPLIER, FEE_TAKER_BPS, MAX_SLIPPAGE_BPS,
      MIN_RISK_REWARD_RATIO]
  · norm_num

/-- Claim C4 (amended): with entry 100, ATR 1, TP multiplier 4 and SL
multiplier 2 the raw targets are tp_bps = 400 and sl_bps = 200 before
clamping, and the stored risk-reward is the net TP bps divided by the raw SL
bps plus the fee-and-slippage cost: `(400 - 15) / (200 + 15)`. -/
theorem setup_targets_at_100_1 :
    check_setup_targets 100 1 =
      some { raw_tp_bps := 400, raw_sl_bps := 200, rr := (400 - 15) / (200 + 15),
             tp_bps_adj := 80, sl_bps_adj := 60 } := by
  rw [check_setup_targets]
  norm_num [TP_ATR_MULTIPLIER, SL_ATR_MULTIPLIER, FEE_TAKER_BPS, MAX_SLIPPAGE_BPS,
    MIN_RISK_REWARD_RATIO, MIN_TP_BPS, MAX_TP_BPS, MIN_SL_BPS, MAX_SL_BPS]

/-- A concrete OPEN position with a recorded entry size, as left by an entry
fill. -/
def openPosDemo : Position :=
  { inst_id := "BTC-USDT", state := PosState.OPEN, entry_size := some 1,
    attach_algo_id := none, exit_order_id := none, exit_type := none }

/-- Claim C2 (code bug evaluation): forcing a close of an OPEN position with
a recorded entry size raises `TypeError` — line 438 passes three positional
arguments to `place_market_order`, whose required `cl_ord_id` parameter is
missing — before any submission takes place, whatever the collaborator would
have replied; the position is left in state CLOSING, never CLOSING_FAILED,
and the uncaught fault propagates out of `monitor_position`. -/
theorem force_close_position_raises :
    force_close_position (some openPosDemo) "MAX_HOLD_TIME" (some "orderid") =
      (some { openPosDemo with state := PosState.CLOSING }, PyOutcome.raisedTypeError) ∧
    force_close_position (some openPosDemo) "MAX_HOLD_TIME" none =
      (some { openPosDemo with state := PosState.CLOSING }, PyOutcome.raisedTypeError) := by
  constructor <;> rfl

/-- Claim C9: `record_trade` with pnl exactly 0 takes the win branch — it
resets `consecutive_losses` to 0, leaves `last_loss_time` unchanged, sets
`last_trade_time`, adds pnl 0 to `daily_pnl`, and appends the trade time to
the instrument's window (so the post-exit cooldown and the hourly rate window
restart after a break-even trade like after any other). -/
theorem record_trade_breakeven_is_win (s : RiskState) (i : String) (now : ℚ) :
    record_trade s i 0 now =
      { daily_pnl := s.daily_pnl, consecutive_losses := 0, last_trade_time := now,
        last_loss_time := s.last_loss_time,
        pair_trade_times :=
          Function.update s.pair_trade_times i (s.pair_trade_times i ++ [now]) } := by
  simp [record_trade]

/-- Both branches of `record_trade` set `last_trade_time` to the call time. -/
theorem record_trade_last_trade_time (s : RiskState) (i : String) (pnl now : ℚ) :
    (record_trade s i pnl now).last_trade_time = now := by
  rw [record_trade]
  split <;> rfl

/-- Claim C7: after a trade recorded at `t0`, with no other risk limit
tripped at query time `t`, `can_open_position` answers false while
`t - t0 < COOL_DOWN_AFTER_EXIT_SEC` and `(true, "")` from the moment
`t - t0` reaches the cooldown. -/
theorem can_open_position_cooldown (s : RiskState) (i : String) (pnl t0 t : ℚ)
    (hloss : ¬ (0 < (record_trade s i pnl t0).consecutive_losses ∧
      t - (record_trade s i pnl t0).last_loss_time < COOL_DOWN_AFTER_LOSS_SEC))
    (hdaily : ¬ ((record_trade s i pnl t0).daily_pnl ≤ -MAX_DAILY_LOSS))
    (hconsec : ¬ (MAX_CONSECUTIVE_LOSSES ≤ (record_trade s i pnl t0).consecutive_losses))
    (hrate : (((record_trade s i pnl t0).pair_trade_times i).filter
      (fun x => t - x < 3600)).length < MAX_TRADES_PER_PAIR_PER_HOUR) :
    (t - t0 < COOL_DOWN_AFTER_EXIT_SEC →
      ((can_open_position (record_trade s i pnl t0) t (some i) 0).1).1 = false) ∧
    (COOL_DOWN_AFTER_EXIT_SEC ≤ t - t0 →
      (can_open_position (record_trade s i pnl t0) t (some i) 0).1 = (true, "")) := by
  have hlast := record_trade_last_trade_time s i pnl t0
  constructor
  · intro h
    rw [can_open_position, hlast, if_pos h]
  · intro h
    rw [can_open_position, hlast, if_neg (not_lt.mpr h), if_neg hloss, if_neg hdaily,
      if_neg hconsec, if_neg (by norm_num [MAX_CONCURRENT_TRADES]),
      if_neg (not_le.mpr hrate)]

/-- Witness for C7: a fresh risk manager records a winning trade at time 100;
at time 101 (inside the 2-second cooldown) the instrument is refused, and at
time 102 (cooldown expired) it is admitted with reason "". -/
theorem can_open_position_cooldown_witness :
    ((can_open_position (record_trade initRisk "BTC-USDT" 1 100) 101 (some "BTC-USDT") 0).1).1
      = false ∧
    (can_open_position (record_trade initRisk "BTC-USDT" 1 100) 102 (some "BTC-USDT") 0).1
      = (true, "") := by
  constructor
  · exact (can_open_position_cooldown initRisk "BTC-USDT" 1 100 101
      (by norm_num [record_trade, initRisk])
      (by norm_num [record_trade, initRisk, MAX_DAILY_LOSS])
      (by norm_num [record_trade, initRisk, MAX_CONSECUTIVE_LOSSES])
      (by norm_num [record_trade, initRisk, MAX_TRADES_PER_PAIR_PER_HOUR,
        Function.update_same])).1
      (by norm_num [COOL_DOWN_AFTER_EXIT_SEC])
  · exact (can_open_position_cooldown initRisk "BTC-USDT" 1 100 102
      (by norm_num [record_trade, initRisk])
      (by norm_num [record_trade, initRisk, MAX_DAILY_LOSS])
      (by norm_num [record_trade, initRisk, MAX_CONSECUTIVE_LOSSES])
      (by norm_num [record_trade, initRisk, MAX_TRADES_PER_PAIR_PER_HOUR,
        Function.update_same])).2
      (by norm_num [COOL_DOWN_AFTER_EXIT_SEC])

/-- A risk state one second after a trade, holding a stale (over an hour old)
trade timestamp for the instrument. -/
def riskDemo : RiskState :=
  { daily_pnl := 0, consecutive_losses := 0, last_trade_time := 100,
    last_loss_time := 0,
    pair_trade_times := Function.update (fun _ => []) "BTC-USDT" [-5000] }

/-- Claim C10 (counterexample): at time 101 — inside the post-exit cooldown —
`can_open_position` returns before reaching the rate-limit block, so the
instrument's trade-time list keeps its stale entry instead of being pruned to
entries younger than 3600 seconds. -/
theorem can_open_position_no_prune_counterexample :
    (can_open_position riskDemo 101 (some "BTC-USDT") 0).2.pair_trade_times "BTC-USDT"
        = [-5000] ∧
    ([-5000] : List ℚ) ≠ ([-5000] : List ℚ).filter (fun x => 101 - x < 3600) := by
  constructor
  · rw [can_open_position, if_pos (by norm_num [riskDemo, COOL_DOWN_AFTER_EXIT_SEC])]
    simp [riskDemo]
  · intro h
    rw [show ([-5000] : List ℚ).filter (fun x => 101 - x < 3600) = [] from by
      simp; norm_num] at h
    exact List.cons_ne_nil _ _ h

/-- The state `can_open_position` leaves behind when it reaches the
per-instrument rate block: the instrument's window pruned to entries younger
than 3600 seconds. -/
def pruned (s : RiskState) (now : ℚ) (i : String) : RiskState :=
  { s with pair_trade_times := Function.update s.pair_trade_times i ((s.pair_trade_times i).filter (fun x => now - x < 3600)) }

/-- Claim C10 (amended): whenever the four earlier gates pass,
`can_open_position` with an instrument prunes that instrument's
trade-timestamp list to entries younger than 3600 seconds (whatever the rate
check then decides); and on every call every `RiskState` field other than
`pair_trade_times` is left unchanged.  When an earlier gate short-circuits —
as in the counterexample — the state is returned unmodified. -/
theorem can_open_position_prune_frame (s : RiskState) (now : ℚ) (i : String)
    (h1 : ¬ (now - s.last_trade_time < COOL_DOWN_AFTER_EXIT_SEC))
    (h2 : ¬ (0 < s.consecutive_losses ∧ now - s.last_loss_time < COOL_DOWN_AFTER_LOSS_SEC))
    (h3 : ¬ (s.daily_pnl ≤ -MAX_DAILY_LOSS))
    (h4 : ¬ (MAX_CONSECUTIVE_LOSSES ≤ s.consecutive_losses)) :
    (can_open_position s now (some i) 0).2 = pruned s now i ∧
    (∀ (t : ℚ) (inst : Option String) (op : ℕ),
      (can_open_position s t inst op).2.daily_pnl = s.daily_pnl ∧
      (can_open_position s t inst op).2.consecutive_losses = s.consecutive_losses ∧
      (can_open_position s t inst op).2.last_trade_time = s.last_trade_time ∧
      (can_open_position s t inst op).2.last_loss_time = s.last_loss_time) ∧
    (∀ j, j ≠ i → (can_open_position s now (some i) 0).2.pair_trade_times j
      = s.pair_trade_times j) := by
  have hmain : (can_open_position s now (some i) 0).2 = pruned s now i := by
    rw [can_open_position, if_neg h1, if_neg h2, if_neg h3, if_neg h4,
      if_neg (by norm_num [MAX_CONCURRENT_TRADES])]
    rw [pruned]
    by_cases hr : MAX_TRADES_PER_PAIR_PER_HOUR ≤
        (List.filter (fun t => decide (now - t < 3600)) (s.pair_trade_times i)).length
    · simp only [if_pos hr]
    · simp only [if_neg hr]
  refine ⟨hmain, ?_, ?_⟩
  · intro t inst op
    rw [can_open_position.eq_def]
    cases inst <;> dsimp only <;> split_ifs <;> simp_all
  · intro j hj
    rw [hmain, pruned]
    exact Function.update_noteq hj _ _

/-- Witness for C10 (amended): a fresh risk manager queried at time 10 for an
instrument reaches the rate-limit block and stores the pruned (empty) window
for that instrument. -/
theorem can_open_position_prune_frame_witness :
    (can_open_position initRisk 10 (some "BTC-USDT") 0).2 = pruned initRisk 10 "BTC-USDT" :=
  (can_open_position_prune_frame initRisk 10 "BTC-USDT"
    (by norm_num [initRisk, COOL_DOWN_AFTER_EXIT_SEC])
    (by simp [initRisk])
    (by norm_num [initRisk, MAX_DAILY_LOSS])
    (by norm_num [initRisk, MAX_CONSECUTIVE_LOSSES])).1

/-! ## Lemmas for the BarAggregator invariants (claim C5) -/

theorem pyInt_mono {a b : ℚ} (h : a ≤ b) : pyInt a ≤ pyInt b := by
  unfold pyInt
  rcases lt_or_le a 0 with ha | ha <;> rcases lt_or_le b 0 with hb | hb
  · rw [if_pos ha, if_pos hb]
    exact Int.ceil_mono h
  · rw [if_pos ha, if_neg (not_lt.mpr hb)]
    exact le_trans (Int.ceil_le.mpr (by exact_mod_cast ha.le)) (Int.floor_nonneg.mpr hb)
  · exact absurd (lt_of_le_of_lt h hb) (not_lt.mpr ha)
  · rw [if_neg (not_lt.mpr ha), if_neg (not_lt.mpr hb)]
    exact Int.floor_mono h

theorem tickBucket_mono (period : ℚ) (hp : 0 < period) {a b : ℚ} (h : a ≤ b) :
    tickBucket period a ≤ tickBucket period b := by
  unfold tickBucket
  have h1 : a / period ≤ b / period := (div_le_div_iff_of_pos_right hp).mpr h
  exact mul_le_mul_of_nonneg_right (Int.cast_le.mpr (pyInt_mono h1)) hp.le

theorem pushBounded_length_le (cap : ℕ) (xs : List ClosedBar) (b : ClosedBar) :
    (pushBounded cap xs b).length ≤ cap ∨ (pushBounded cap xs b).length = xs.length + 1 := by
  unfold pushBounded
  split_ifs with h
  · left
    rw [List.length_drop]
    omega
  · right
    simp

theorem pushBounded_length_le_of_le (cap : ℕ) (xs : List ClosedBar) (b : ClosedBar)
    (h : xs.length ≤ cap) : (pushBounded cap xs b).length ≤ cap := by
  rcases pushBounded_length_le cap xs b with h1 | h1
  · exact h1
  · rw [h1]
    unfold pushBounded at h1
    split_ifs at h1 with h2
    · rw [List.length_drop] at h1
      omega
    · simp at h2
      omega

theorem pushBounded_sublist (cap : ℕ) (xs : List ClosedBar) (b : ClosedBar) :
    (pushBounded cap xs b).Sublist (xs ++ [b]) := by
  unfold pushBounded
  split_ifs
  · exact List.drop_sublist _ _
  · exact List.Sublist.refl _

theorem mem_pushBounded (cap : ℕ) (xs : List ClosedBar) (b c : ClosedBar)
    (h : c ∈ pushBounded cap xs b) : c ∈ xs ++ [b] :=
  (pushBounded_sublist cap xs b).subset h

theorem lastTickIn_append (period : ℚ) (done : List Tick) (tk : Tick) (s0 : ℚ) :
    lastTickIn period (done ++ [tk]) s0 =
      if tickBucket period tk.now = s0 then some tk.price
      else lastTickIn period done s0 := by
  unfold lastTickIn
  rw [List.reverse_append]
  simp only [List.reverse_cons, List.reverse_nil, List.nil_append, List.singleton_append]
  by_cases hcase : tickBucket period tk.now = s0
  · rw [if_pos hcase, List.find?_cons_of_pos _ (by simpa using hcase)]
    rfl
  · rw [if_neg hcase, List.find?_cons_of_neg _ (by simpa using hcase)]

/-- Behaviour of `add_tick` on the very first tick. -/
theorem add_tick_none (cap : ℕ) (period : ℚ) (s : AggState) (now price volume : ℚ)
    (h : s.current_bar = none) :
    add_tick cap period s now price volume =
      { bars := s.bars,
        current_bar := some ⟨tickBucket period now, price, max price price, min price price, price⟩,
        current_bar_start := tickBucket period now,
        trade_volumes := if 0 < volume then [volume] else [] } := by
  rw [add_tick, rollTo, h]
  split_ifs <;> rfl

/-- Behaviour of `add_tick` when the tick stays in the current bucket. -/
theorem add_tick_same (cap : ℕ) (period : ℚ) (s : AggState) (cb : CurBar)
    (now price volume : ℚ) (h : s.current_bar = some cb)
    (hle : ¬ s.current_bar_start < tickBucket period now) :
    add_tick cap period s now price volume =
      { s with current_bar := some ⟨tickBucket period now, cb.o, max cb.h price, min cb.l price, price⟩,
               trade_volumes := if 0 < volume then s.trade_volumes ++ [volume] else s.trade_volumes } := by
  rw [add_tick, h]
  simp only [if_neg hle, h]
  split_ifs <;> rfl

/-- Behaviour of `add_tick` when the bucket advanced: the current bar is
closed and appended, a fresh bar is seeded. -/
theorem add_tick_roll (cap : ℕ) (period : ℚ) (s : AggState) (cb : CurBar)
    (now price volume : ℚ) (h : s.current_bar = some cb)
    (hlt : s.current_bar_start < tickBucket period now) :
    add_tick cap period s now price volume =
      { bars := pushBounded cap s.bars ⟨cb.bucket, cb.o, cb.h, cb.l, cb.c, s.trade_volumes.sum⟩,
        current_bar := some ⟨tickBucket period now, price, max price price, min price price, price⟩,
        current_bar_start := tickBucket period now,
        trade_volumes := if 0 < volume then [volume] else [] } := by
  rw [add_tick, rollTo, h]
  simp only [if_pos hlt, h]
  split_ifs <;> rfl

theorem lastTickIn_some_exists {period : ℚ} {done : List Tick} {s0 c : ℚ}
    (h : lastTickIn period done s0 = some c) :
    ∃ t ∈ done, tickBucket period t.now = s0 := by
  unfold lastTickIn at h
  cases hf : done.reverse.find? (fun t => decide (tickBucket period t.now = s0)) with
  | none => rw [hf] at h; exact nomatch h
  | some t =>
      have hpred := List.find?_some hf
      simp only [decide_eq_true_eq] at hpred
      exact ⟨t, List.mem_reverse.mp (List.mem_of_find?_eq_some hf), hpred⟩

/-- The inductive invariant of one `BarAggregator` after processing the tick
sequence `done` under a non-decreasing clock. -/
structure AggInv (cap : ℕ) (period : ℚ) (done : List Tick) (s : AggState) : Prop where
  len_le : s.bars.length ≤ cap
  sorted : s.bars.Pairwise (fun a b => a.start < b.start)
  closed_lt : ∀ b ∈ s.bars, b.start < s.current_bar_start
  closes : ∀ b ∈ s.bars, lastTickIn period done b.start = some b.c
  cur : ∀ cb, s.current_bar = some cb →
    cb.bucket = s.current_bar_start ∧
    lastTickIn period done s.current_bar_start = some cb.c
  bound : ∀ t ∈ done, tickBucket period t.now ≤ s.current_bar_start
  init_empty : s.current_bar = none → done = [] ∧ s.bars = []

theorem aggInv_init (cap : ℕ) (period : ℚ) : AggInv cap period [] initAgg := by
  constructor
  · exact Nat.zero_le cap
  · exact List.Pairwise.nil
  · intro b hb; exact absurd hb (List.not_mem_nil b)
  · intro b hb; exact absurd hb (List.not_mem_nil b)
  · intro cb hcb; exact nomatch hcb
  · intro t ht; exact absurd ht (List.not_mem_nil t)
  · intro _; exact ⟨rfl, rfl⟩

theorem aggInv_step (cap : ℕ) (period : ℚ) (hp : 0 < period) (done : List Tick)
    (s : AggState) (inv : AggInv cap period done s) (tk : Tick)
    (hmono : ∀ t ∈ done, t.now ≤ tk.now) :
    AggInv cap period (done ++ [tk]) (add_tick cap period s tk.now tk.price tk.vol) := by
  cases hcur : s.current_bar with
  | none =>
      obtain ⟨hdone, hbars⟩ := inv.init_empty hcur
      subst hdone
      rw [add_tick_none cap period s tk.now tk.price tk.vol hcur]
      constructor
      · rw [hbars]; exact Nat.zero_le cap
      · rw [hbars]; exact List.Pairwise.nil
      · intro b hb; rw [hbars] at hb; exact absurd hb (List.not_mem_nil b)
      · intro b hb; rw [hbars] at hb; exact absurd hb (List.not_mem_nil b)
      · intro cb hcb
        obtain rfl := Option.some.inj hcb
        refine ⟨rfl, ?_⟩
        show lastTickIn period ([] ++ [tk]) (tickBucket period tk.now) = some tk.price
        rw [lastTickIn_append, if_pos rfl]
      · intro t ht
        rw [List.nil_append, List.mem_singleton] at ht
        subst ht
        exact le_refl _
      · intro hcontra; exact nomatch hcontra
  | some cb =>
      obtain ⟨hbk, hlast⟩ := inv.cur cb hcur
      have hcbs_le : s.current_bar_start ≤ tickBucket period tk.now := by
        obtain ⟨t0, ht0, hb0⟩ := lastTickIn_some_exists hlast
        calc s.current_bar_start = tickBucket period t0.now := hb0.symm
          _ ≤ tickBucket period tk.now := tickBucket_mono period hp (hmono t0 ht0)
      by_cases hroll : s.current_bar_start < tickBucket period tk.now
      · rw [add_tick_roll cap period s cb tk.now tk.price tk.vol hcur hroll]
        have hmemsplit : ∀ b : ClosedBar,
            b ∈ pushBounded cap s.bars ⟨cb.bucket, cb.o, cb.h, cb.l, cb.c, s.trade_volumes.sum⟩ →
            b ∈ s.bars ∨ b = ⟨cb.bucket, cb.o, cb.h, cb.l, cb.c, s.trade_volumes.sum⟩ := by
          intro b hb
          have := mem_pushBounded cap s.bars _ b hb
          rw [List.mem_append, List.mem_singleton] at this
          exact this
        have hstartlt : ∀ b : ClosedBar,
            b ∈ pushBounded cap s.bars ⟨cb.bucket, cb.o, cb.h, cb.l, cb.c, s.trade_volumes.sum⟩ →
            b.start < tickBucket period tk.now := by
          intro b hb
          rcases hmemsplit b hb with hmem | hmem
          · exact lt_trans (inv.closed_lt b hmem) hroll
          · rw [hmem]
            rw [show (⟨cb.bucket, cb.o, cb.h, cb.l, cb.c, s.trade_volumes.sum⟩ :
              ClosedBar).start = cb.bucket from rfl, hbk]
            exact hroll
        constructor
        · exact pushBounded_length_le_of_le cap s.bars _ inv.len_le
        · refine List.Pairwise.sublist (pushBounded_sublist cap s.bars _) ?_
          rw [List.pairwise_append]
          refine ⟨inv.sorted, List.pairwise_singleton _ _, ?_⟩
          intro a ha b hb
          rw [List.mem_singleton] at hb
          subst hb
          rw [show (⟨cb.bucket, cb.o, cb.h, cb.l, cb.c, s.trade_volumes.sum⟩ :
            ClosedBar).start = cb.bucket from rfl, hbk]
          exact inv.closed_lt a ha
        · exact hstartlt
        · intro b hb
          rw [lastTickIn_append, if_neg (ne_of_gt (hstartlt b hb))]
          rcases hmemsplit b hb with hmem | hmem
          · exact inv.closes b hmem
          · rw [hmem]
            rw [show (⟨cb.bucket, cb.o, cb.h, cb.l, cb.c, s.trade_volumes.sum⟩ :
              ClosedBar).start = cb.bucket from rfl, hbk]
            exact hlast
        · intro cb2 hcb2
          obtain rfl := Option.some.inj hcb2
          refine ⟨rfl, ?_⟩
          rw [lastTickIn_append, if_pos rfl]
        · intro t ht
          rw [List.mem_append, List.mem_singleton] at ht
          rcases ht with ht | ht
          · exact le_trans (inv.bound t ht) hcbs_le
          · subst ht; exact le_refl _
        · intro hcontra; exact nomatch hcontra
      · have heq : tickBucket period tk.now = s.current_bar_start :=
          le_antisymm (not_lt.mp hroll) hcbs_le
        rw [add_tick_same cap period s cb tk.now tk.price tk.vol hcur hroll]
        constructor
        · exact inv.len_le
        · exact inv.sorted
        · exact inv.closed_lt
        · intro b hb
          rw [lastTickIn_append, if_neg ?hne]
          · exact inv.closes b hb
          case hne =>
            rw [heq]
            exact ne_of_gt (inv.closed_lt b hb)
        · intro cb2 hcb2
          obtain rfl := Option.some.inj hcb2
          refine ⟨heq, ?_⟩
          rw [lastTickIn_append, if_pos heq]
        · intro t ht
          rw [List.mem_append, List.mem_singleton] at ht
          rcases ht with ht | ht
          · exact inv.bound t ht
          · subst ht; exact heq.le
        · intro hcontra; exact nomatch hcontra

theorem runAggFrom_inv (cap : ℕ) (period : ℚ) (hp : 0 < period) :
    ∀ (rest done : List Tick) (s : AggState),
      AggInv cap period done s →
      (∀ t ∈ done, ∀ u ∈ rest, t.now ≤ u.now) →
      List.Pairwise (fun a b : Tick => a.now ≤ b.now) rest →
      AggInv cap period (done ++ rest) (runAggFrom cap period s rest) := by
  intro rest
  induction rest with
  | nil =>
      intro done s hinv _ _
      rw [List.append_nil]
      exact hinv
  | cons tk rest ih =>
      intro done s hinv hcross hpair
      have h1 : AggInv cap period (done ++ [tk])
          (add_tick cap period s tk.now tk.price tk.vol) :=
        aggInv_step cap period hp done s hinv tk
          (fun t ht => hcross t ht tk (List.mem_cons_self _ _))
      rw [List.pairwise_cons] at hpair
      have h2 := ih (done ++ [tk]) (add_tick cap period s tk.now tk.price tk.vol) h1 ?_ hpair.2
      · rw [show done ++ tk :: rest = (done ++ [tk]) ++ rest by simp] 
        exact h2
      · intro t ht u hu
        rw [List.mem_append, List.mem_singleton] at ht
        rcases ht with ht | ht
        · exact hcross t ht u (List.mem_cons_of_mem _ hu)
        · subst ht; exact hpair.1 u hu

/-- Claim C5: for every tick sequence fed to `BarAggregator.add_tick` under a
non-decreasing (server-adjusted) clock and a positive bar period: the
closed-bar series never exceeds the deque capacity (oldest evicted on
overflow), closed-bar start times are strictly increasing, and each closed
bar's close equals the price of the last tick that fell in the bar's time
bucket — the last tick price observed before the next bucket began. -/
theorem bar_aggregator_invariants (cap : ℕ) (period : ℚ) (ticks : List Tick)
    (hp : 0 < period)
    (hmono : List.Pairwise (fun a b : Tick => a.now ≤ b.now) ticks) :
    (runAgg cap period ticks).bars.length ≤ cap ∧
    (runAgg cap period ticks).bars.Pairwise (fun a b => a.start < b.start) ∧
    ∀ b ∈ (runAgg cap period ticks).bars, lastTickIn period ticks b.start = some b.c := by
  have h := runAggFrom_inv cap period hp ticks [] initAgg (aggInv_init cap period)
    (fun t ht => absurd ht (List.not_mem_nil t)) hmono
  rw [List.nil_append] at h
  exact ⟨h.len_le, h.sorted, h.closes⟩

/-- Five ticks under a non-decreasing clock hitting buckets 0, 0, 1, 2, 3 —
three bars close, the capacity-2 deque evicts the oldest. -/
def demoTicks : List Tick :=
  [⟨0, 10, 0⟩, ⟨1/2, 11, 0⟩, ⟨1, 12, 0⟩, ⟨5/2, 13, 0⟩, ⟨3, 14, 0⟩]

/-- Witness for C5 on `demoTicks` with capacity 2 and period 1. -/
theorem bar_aggregator_invariants_witness :
    (runAgg 2 1 demoTicks).bars.length ≤ 2 ∧
    List.Pairwise (fun a b : ClosedBar => a.start < b.start) (runAgg 2 1 demoTicks).bars := by
  have hmono : List.Pairwise (fun a b : Tick => a.now ≤ b.now) demoTicks := by
    norm_num [demoTicks, List.pairwise_cons, List.forall_mem_cons, demoTicks]
  have h := bar_aggregator_invariants 2 1 demoTicks (by norm_num) hmono
  exact ⟨h.1, h.2.1⟩

/-! ## Claim C8: tick-handler anomaly behaviour -/

/-- The `pairs_data` entry written by `handle_bbo_data` for a book message
with top levels `bb`/`ba`: the quote keys are overwritten, any
`last_armed_high` key is preserved by the dict `.update`. -/
def bboEntry (s : EngineState) (i : String) (m : BboData) (bb ba : ℚ) : PairEntry :=
  { quote := some { best_bid := bb, best_ask := ba, mid := (bb + ba) / 2, book_bids := m.bids, book_asks := m.asks },
    last_armed_high := ((s.pairs_data i).getD { quote := none, last_armed_high := none }).last_armed_high }

/-- Claim C8 (corrected): a top-of-book update with a missing or empty side
is skipped with no state mutation at all; one whose computed mid price is not
positive still overwrites the `pairs_data` snapshot (the write on lines
266-272 precedes the `mid_price > 0` check) but ticks no bar aggregator,
dispatches no scan, and touches neither candidates nor position; a trade
print with non-positive price leaves the engine state unchanged. -/
theorem tick_anomaly_handling :
    (∀ (s : EngineState) (i : String) (m : BboData) (now : ℚ),
      (m.bids.isEmpty || m.asks.isEmpty || m.bids.headI.isEmpty || m.asks.headI.isEmpty) = true →
      handle_bbo_data s i [m] now = (s, false)) ∧
    (∀ (s : EngineState) (i : String) (m : BboData) (now bb ba : ℚ),
      m.bids.headI.head? = some bb → m.asks.headI.head? = some ba → (bb + ba) / 2 ≤ 0 →
      handle_bbo_data s i [m] now =
        ({ s with pairs_data := Function.update s.pairs_data i (some (bboEntry s i m bb ba)) }, false)) ∧
    (∀ (s : EngineState) (i : String) (p v now : ℚ), p ≤ 0 →
      handle_trade_data s i [(p, v)] now = s) := by
  refine ⟨?_, ?_, ?_⟩
  · intro s i m now h
    rw [handle_bbo_data]
    simp only [List.head?_cons]
    rw [if_pos h]
  · intro s i m now bb ba hbb hba hmid
    have hb1 : m.bids.isEmpty = false := by
      cases hm : m.bids with
      | nil => rw [hm, List.headI_nil] at hbb; exact nomatch hbb
      | cons a l => rfl
    have hb2 : m.bids.headI.isEmpty = false := by
      cases hm : m.bids.headI with
      | nil => rw [hm] at hbb; simp at hbb
      | cons a l => rfl
    have ha1 : m.asks.isEmpty = false := by
      cases hm : m.asks with
      | nil => rw [hm, List.headI_nil] at hba; exact nomatch hba
      | cons a l => rfl
    have ha2 : m.asks.headI.isEmpty = false := by
      cases hm : m.asks.headI with
      | nil => rw [hm] at hba; simp at hba
      | cons a l => rfl
    rw [handle_bbo_data]
    simp only [List.head?_cons, hb1, hb2, ha1, ha2, Bool.or_self, Bool.or_false,
      Bool.false_or, if_false, hbb, hba]
    rw [if_neg (not_lt.mpr hmid)]
    rfl
  · intro s i p v now hp
    rw [handle_trade_data]
    simp only [List.foldl_cons, List.foldl_nil, if_neg (not_lt.mpr hp)]
    rw [Function.update_eq_self]

/-- Witness for C8 (corrected): an empty bid side is a strict no-op; a book
whose mid computes to 0 rewrites only the `pairs_data` snapshot; a trade
print at price −1 changes nothing. -/
theorem tick_anomaly_handling_witness :
    handle_bbo_data initEngine "A" [{ bids := [], asks := [[1, 1]] }] 0 = (initEngine, false) ∧
    handle_bbo_data initEngine "A" [{ bids := [[-1, 2]], asks := [[1, 2]] }] 0 =
      ({ initEngine with pairs_data := Function.update initEngine.pairs_data "A" (some (bboEntry initEngine "A" { bids := [[-1, 2]], asks := [[1, 2]] } (-1) 1)) }, false) ∧
    handle_trade_data initEngine "A" [(-1, 5)] 0 = initEngine := by
  refine ⟨?_, ?_, ?_⟩
  · exact tick_anomaly_handling.1 initEngine "A" _ 0 (by rfl)
  · exact tick_anomaly_handling.2.1 initEngine "A" _ 0 (-1) 1 rfl rfl (by norm_num)
  · exact tick_anomaly_handling.2.2 initEngine "A" (-1) 5 0 (by norm_num)

/-- Claim C8 (counterexample): a top-of-book update whose mid computes to 0
(bid −1, ask 1) is not skipped without mutation — the `pairs_data` snapshot
for the instrument changes from absent to a stored quote. -/
theorem handle_bbo_mutation_counterexample :
    (handle_bbo_data initEngine "BTC-USDT" [{ bids := [[-1, 2]], asks := [[1, 2]] }] 0).1.pairs_data "BTC-USDT"
      ≠ initEngine.pairs_data "BTC-USDT" := by
  rw [handle_bbo_data]
  simp only [List.head?_cons, List.headI]
  norm_num [initEngine, Function.update_same]
  exact fun h => nomatch h

end Sniper
